import Mathlib

/- Shallow embedding of the claude-squad core: the persisted state layer
(src/config/state.go), the instance storage layer (the session storage file),
and the UI instance list, filtering and repository tabs (the ui list and
repo-tabs files). Disk writes (SaveState) are side effects outside the
embedding; every function below models the in-memory document the source
computes, and where a claim is about what gets written we model the write
as returned data. -/

/-- RepositoryData (src/config/state.go lines 19-30). Timestamps (time.Time,
compared only through Before, a strict order) are modelled as integers. -/
structure RepositoryData where
  path : String
  name : String
  lastAccessed : Int
  createdAt : Int
  instanceCount : Int
deriving DecidableEq, Repr

/-- State (src/config/state.go lines 80-91). `repositories` is an Option so a
Go nil slice (from JSON null or an absent field) is distinguished from an
empty slice: migrateState inspects exactly that difference. InstancesData
(json.RawMessage) is kept as an opaque String. -/
structure State where
  helpScreensSeen : Nat
  instancesData : String
  repositories : Option (List RepositoryData)
  selectedRepository : String
  stateVersion : Int
deriving DecidableEq, Repr

def CurrentStateVersion : Int := 1

/-- DefaultState (state.go 96-104). make([]RepositoryData, 0) is an empty,
non-nil slice, hence `some []`. -/
def DefaultState : State :=
  { helpScreensSeen := 0
    instancesData := "[]"
    repositories := some []
    selectedRepository := ""
    stateVersion := CurrentStateVersion }

/-- The repositories slice as a list: Go range and append treat nil as empty. -/
def State.listRepos (s : State) : List RepositoryData := s.repositories.getD []

/-- migrateState (state.go 610-627). The v0 branch replaces a nil Repositories
slice with an empty one and bumps the version to 1. The SelectedRepository
branch in the source assigns "" when it is already "", a no-op not repeated
here. Any other version is returned untouched. -/
def migrateState (s : State) : State :=
  if s.stateVersion = 0 then
    { s with
      repositories := some (s.repositories.getD [])
      stateVersion := 1 }
  else s

/-- The loop of State.AddRepository (state.go 455-468): replace the first
entry whose Path matches, otherwise append at the end. -/
def upsertRepo : List RepositoryData → RepositoryData → List RepositoryData
  | [], repo => [repo]
  | r :: rest, repo =>
    if r.path = repo.path then repo :: rest else r :: upsertRepo rest repo

/-- State.AddRepository (state.go 455-468), minus the SaveState disk write. -/
def State.addRepository (s : State) (repo : RepositoryData) : State :=
  { s with repositories := some (upsertRepo s.listRepos repo) }

/-- What os.Stat can report for the paths ValidateRepositoryPath inspects: any
error (IsNotExist or otherwise — both turn into a returned error in the
source) is `none`; success carries whether the path is a directory. -/
structure Fs where
  stat : String → Option Bool

/-- filepath.Join(path, ".git") for the non-empty paths validation hands it. -/
def joinGit (path : String) : String := path ++ "/.git"

/-- ValidateRepositoryPath (state.go 288-317) as a Boolean: true exactly when
no branch returns an error — the path is non-empty, stats successfully, is a
directory, and its .git entry stats successfully. -/
def validRepoPath (fs : Fs) (path : String) : Bool :=
  if path = "" then false
  else
    match fs.stat path with
    | none => false
    | some isDir =>
      if !isDir then false
      else (fs.stat (joinGit path)).isSome

/-- The loop of State.CleanupInvalidRepositories (state.go 324-338): it
accumulates the surviving entries in order, counts removals, and clears the
(current) selection when an invalid entry's path equals it. -/
def cleanupLoop (fs : Fs) :
    List RepositoryData → List RepositoryData → Nat → String →
    List RepositoryData × Nat × String
  | [], valid, removed, sel => (valid, removed, sel)
  | r :: rest, valid, removed, sel =>
    if validRepoPath fs r.path then
      cleanupLoop fs rest (valid ++ [r]) removed sel
    else
      cleanupLoop fs rest valid (removed + 1) (if sel = r.path then "" else sel)

/-- State.CleanupInvalidRepositories (state.go 320-348), minus the SaveState
write. The Repositories field is reassigned only when something was removed
(Go's validRepos accumulator is nil when it stayed empty, hence `none`);
the selection mutation from the loop persists either way. Returns the new
state with the removed count. -/
def State.cleanupInvalidRepositories (fs : Fs) (s : State) : State × Nat :=
  match cleanupLoop fs s.listRepos [] 0 s.selectedRepository with
  | (valid, removed, sel) =>
    if removed > 0 then
      ({ s with repositories := if valid = [] then none else some valid
                selectedRepository := sel }, removed)
    else
      ({ s with selectedRepository := sel }, removed)

/-- repos[j].LastAccessed.Before(repos[j+1].LastAccessed): strict comparison. -/
def laBefore (a b : RepositoryData) : Bool := a.lastAccessed < b.lastAccessed

/-- One run of the inner loop of GetRepositoriesSortedByLastAccessed
(state.go 275-279) doing at most k adjacent compare-and-swap steps from the
front: swap when the earlier entry's LastAccessed is strictly before the
later one's. -/
def passN : Nat → List RepositoryData → List RepositoryData
  | 0, xs => xs
  | _ + 1, [] => []
  | _ + 1, [a] => [a]
  | k + 1, a :: b :: rest =>
    if laBefore a b then b :: passN k (a :: rest) else a :: passN k (b :: rest)

/-- The outer loop (state.go 274-280): outer iteration i runs the inner loop
with len-1-i comparisons, so the passes use k, k-1, ..., 1 comparisons. -/
def bubbleAux : Nat → List RepositoryData → List RepositoryData
  | 0, xs => xs
  | k + 1, xs => bubbleAux k (passN (k + 1) xs)

/-- GetRepositoriesSortedByLastAccessed (state.go 269-283): copy the slice,
bubble-sort the copy descending by LastAccessed, return it. The receiver is
returned as well, recording that only the copy was sorted and the state's own
Repositories list is untouched. -/
def State.getRepositoriesSortedByLastAccessed (s : State) :
    List RepositoryData × State :=
  (bubbleAux (s.listRepos.length - 1) s.listRepos, s)

/-- The outcomes LoadState (state.go 107-147) distinguishes: a config-dir
failure, a missing state file, any other read error, contents that fail
json.Unmarshal, or contents that parse to a State. -/
inductive ReadOutcome where
  | configDirError
  | notFound
  | readError
  | corrupt
  | parsed (s : State)
deriving DecidableEq, Repr

/-- LoadState (state.go 107-147): the state it returns, plus what (if
anything) it wrote back to disk via SaveState; a failing SaveState is only
logged, so the write is the attempted document. On the parsed path the
source's save-if-migrated check (line 140) compares migratedState.StateVersion
with state.StateVersion, but migrateState mutated that same State in place
and returned its address, so the two sides alias and the check never fires:
a migrated state is returned but never written back. -/
def loadState : ReadOutcome → State × Option State
  | .configDirError => (DefaultState, none)
  | .notFound => (DefaultState, some DefaultState)
  | .readError => (DefaultState, none)
  | .corrupt => (DefaultState, none)
  | .parsed st => (migrateState st, none)

/-- Status of an instance. Modelled from the spec: the session package's
Status type is not under src/; spec section 3 gives Ready, Running, Paused. -/
inductive Status where
  | ready
  | running
  | paused
deriving DecidableEq, Repr

/-- GitWorktreeData (storage file lines 657-663). -/
structure GitWorktreeData where
  repoPath : String
  worktreePath : String
  sessionName : String
  branchName : String
  baseCommitSHA : String
deriving DecidableEq, Repr

/-- DiffStatsData (storage file lines 666-670). -/
structure DiffStatsData where
  added : Int
  removed : Int
  content : String
deriving DecidableEq, Repr

/-- InstanceData (storage file lines 638-654): the serializable snapshot. -/
structure InstanceData where
  title : String
  path : String
  branch : String
  status : Status
  height : Int
  width : Int
  createdAt : Int
  updatedAt : Int
  autoYes : Bool
  repositoryPath : String
  program : String
  worktree : GitWorktreeData
  diffStats : DiffStatsData
deriving DecidableEq, Repr

/-- Modelled from the spec: session.Instance is not under src/. Per spec
section 3 an instance carries its snapshot fields and becomes Started only
once worktree and session materialize; per section 4.1 operations on a
not-yet-started instance are guarded no-ops, so a started instance is the one
whose GetGitWorktree succeeds. Go compares instances by pointer; concrete
instances in this file are kept pairwise distinct as values. -/
structure Instance where
  started : Bool
  data : InstanceData
deriving DecidableEq, Repr

/-- Instance.ToInstanceData: the serializable snapshot. -/
def Instance.toInstanceData (i : Instance) : InstanceData := i.data

/-- FromInstanceData. Modelled from the spec: only started instances are ever
persisted (Storage.SaveInstances filters on Started), a restored instance may
have its list finalizer called immediately (list.go AddInstance doc), and
round-tripping is field-for-field (spec section 8) — so restoration yields a
started instance with the same snapshot. -/
def fromInstanceData (d : InstanceData) : Instance :=
  { started := true, data := d }

/-- GetGitWorktree().GetRepoPath() for a started instance. -/
def Instance.getRepoPath (i : Instance) : String := i.data.worktree.repoPath

/-- Storage.SaveInstances (storage file lines 685-701): only instances whose
Started() is true are converted and persisted; JSON marshalling is outside
the embedding, so the written document is the list of records. -/
def storageSaveInstances : List Instance → List InstanceData
  | [] => []
  | i :: rest =>
    if i.started then i.toInstanceData :: storageSaveInstances rest
    else storageSaveInstances rest

/-- Storage.LoadInstances (storage file lines 704-722): each stored record is
rebuilt with FromInstanceData. -/
def storageLoadInstances (ds : List InstanceData) : List Instance :=
  ds.map fromInstanceData

/-- The repoMap of Storage.CleanupOrphanedInstances (storage lines 843-847):
membership of a repository path among the Registry's known paths. -/
def repoKeys (repos : List RepositoryData) : List String :=
  repos.map (fun r => r.path)

/-- The keep/drop loop of Storage.CleanupOrphanedInstances (852-861): keep an
instance whose RepositoryPath is empty or known, in order; count orphans. -/
def orphanLoop (keys : List String) : List Instance → List Instance × Nat
  | [] => ([], 0)
  | i :: rest =>
    let p := orphanLoop keys rest
    if i.toInstanceData.repositoryPath = "" ∨ i.toInstanceData.repositoryPath ∈ keys then
      (i :: p.1, p.2)
    else
      (p.1, p.2 + 1)

/-- Storage.CleanupOrphanedInstances (storage lines 837-870): the surviving
instances, and — exactly when at least one orphan was dropped — the document
re-persisted through Storage.SaveInstances. -/
def cleanupOrphanedInstances (repos : List RepositoryData) (insts : List Instance) :
    List Instance × Option (List InstanceData) :=
  let p := orphanLoop (repoKeys repos) insts
  (p.1, if p.2 > 0 then some (storageSaveInstances p.1) else none)

/-- RepoTabs (repo-tabs file lines 11-16); the display width field is
rendering-only and omitted. repoNames is the parallel display-name slice. -/
structure RepoTabs where
  repos : List String
  repoNames : List String
  selectedIdx : Nat
deriving DecidableEq, Repr

/-- NewRepoTabs (repo-tabs 40-47). -/
def newRepoTabs : RepoTabs :=
  { repos := [], repoNames := [], selectedIdx := 0 }

/-- The charwise scan behind the basename: keep the run of characters after
the last separator. -/
def lastComponent : List Char → List Char → List Char
  | [], acc => acc
  | c :: rest, acc =>
    if c = '/' then lastComponent rest [] else lastComponent rest (acc ++ [c])

/-- getRepoDisplayName (repo-tabs 136-143): filepath.Base of the path — the
last path component ("unknown" for the empty path; trailing-slash cleaning of
filepath.Base is irrelevant to the modelled paths). -/
def getRepoDisplayName (repoPath : String) : String :=
  if repoPath = "" then "unknown"
  else String.mk (lastComponent repoPath.data [])

/-- RepoTabs.AddRepo (repo-tabs 55-65): append if not already present. -/
def RepoTabs.addRepo (rt : RepoTabs) (repoPath : String) : RepoTabs :=
  if repoPath ∈ rt.repos then rt
  else
    { rt with
      repos := rt.repos ++ [repoPath]
      repoNames := rt.repoNames ++ [getRepoDisplayName repoPath] }

/-- The find-first-index-then-break loops of the source. Go compares slice
elements with == (pointer equality for instances; the concrete instances in
this file are pairwise distinct values, so value equality coincides). -/
def findIndex {α : Type} [DecidableEq α] : List α → α → Option Nat
  | [], _ => none
  | x :: rest, a =>
    if x = a then some 0 else (findIndex rest a).map (fun j => j + 1)

/-- RepoTabs.RemoveRepo (repo-tabs 68-83): drop the first occurrence from
both slices, then clamp the selected index against the shrunk length. -/
def RepoTabs.removeRepo (rt : RepoTabs) (repoPath : String) : RepoTabs :=
  match findIndex rt.repos repoPath with
  | none => rt
  | some i =>
    let repos2 := rt.repos.eraseIdx i
    let names2 := rt.repoNames.eraseIdx i
    let sel :=
      if repos2.length ≤ rt.selectedIdx ∧ repos2.length > 0 then repos2.length - 1
      else if repos2.length = 0 then 0
      else rt.selectedIdx
    { repos := repos2, repoNames := names2, selectedIdx := sel }

/-- RepoTabs.ShouldShowTabs (repo-tabs 223-225): more than one repository. -/
def RepoTabs.shouldShowTabs (rt : RepoTabs) : Bool := rt.repos.length > 1

/-- RepoTabs.GetSelectedRepo (repo-tabs 86-91): the selected path, or "" when
the index is out of range (a Nat index is never negative). -/
def RepoTabs.getSelectedRepo (rt : RepoTabs) : String :=
  if rt.selectedIdx < rt.repos.length then
    (rt.repos.get? rt.selectedIdx).getD ""
  else ""

/-- List (list file lines 55-68): the item sequence, the shared selection
index, the repo-path usage counts (a Go map, modelled as an association list;
map iteration order is never observed on the modelled paths — counts use
Int because Go decrements an int), and the tabs component. Rendering fields
(height, width, renderer, autoyes, spinner) are display-only and omitted. -/
structure ListState where
  items : List Instance
  selectedIdx : Nat
  repos : List (String × Int)
  repoTabs : RepoTabs
deriving DecidableEq, Repr

/-- NewList (list 70-78). -/
def newList : ListState :=
  { items := [], selectedIdx := 0, repos := [], repoTabs := newRepoTabs }

/-- Go map read l.repos[repo]: present value, or absent. -/
def lookupCount : List (String × Int) → String → Option Int
  | [], _ => none
  | (k, v) :: rest, key => if k = key then some v else lookupCount rest key

/-- Go map write l.repos[repo] = v: overwrite, or add a new key. -/
def setCount : List (String × Int) → String → Int → List (String × Int)
  | [], key, v => [(key, v)]
  | (k, w) :: rest, key, v =>
    if k = key then (key, v) :: rest else (k, w) :: setCount rest key v

/-- Go delete(l.repos, repo). -/
def eraseKey : List (String × Int) → String → List (String × Int)
  | [], _ => []
  | (k, w) :: rest, key => if k = key then rest else (k, w) :: eraseKey rest key

/-- List.GetFilteredInstances (list 509-538). With tabs hidden or an empty
selected path, the unfiltered items are returned. Otherwise a started
instance passes exactly when its worktree's RepoPath equals the selected
repository (a started instance always has its worktree in this model, so the
error-skip branch of the source is not taken), and a not-yet-started instance
always passes. -/
def getFilteredInstances (l : ListState) : List Instance :=
  if !l.repoTabs.shouldShowTabs then l.items
  else if l.repoTabs.getSelectedRepo = "" then l.items
  else
    l.items.filter (fun i =>
      if i.started then decide (i.getRepoPath = l.repoTabs.getSelectedRepo) else true)

/-- The bounds reset shared by EnsureValidSelection, Up and Down: selectedIdx
is set to 0 when it is at or past the item count. -/
def clampIdx (l : ListState) : Nat :=
  if l.items.length ≤ l.selectedIdx then 0 else l.selectedIdx

/-- List.EnsureValidSelection (list 541-568). The bounds reset of selectedIdx
persists into every branch, as in the source. The impossible lookup failures
(the filtered view is non-empty, so items is non-empty and both indexing and
the search for the first filtered item succeed) leave the index at its reset
value, where the source would not reach. -/
def ensureValidSelection (l : ListState) : ListState :=
  match getFilteredInstances l with
  | [] => l
  | first :: _ =>
    match l.items.get? (clampIdx l) with
    | none => { l with selectedIdx := clampIdx l }
    | some current =>
      if current ∈ getFilteredInstances l then { l with selectedIdx := clampIdx l }
      else
        match findIndex l.items first with
        | some j => { l with selectedIdx := j }
        | none => { l with selectedIdx := clampIdx l }

/-- List.Up (list 385-430). Same bounds-reset behaviour; when the current
item is not in the filtered view the first filtered item is selected; when
it is, and has a predecessor in the filtered view, the predecessor's position
in the unfiltered sequence becomes the selection. -/
def upOp (l : ListState) : ListState :=
  match getFilteredInstances l with
  | [] => l
  | first :: _ =>
    match l.items.get? (clampIdx l) with
    | none => { l with selectedIdx := clampIdx l }
    | some current =>
      match findIndex (getFilteredInstances l) current with
      | none =>
        match findIndex l.items first with
        | some j => { l with selectedIdx := j }
        | none => { l with selectedIdx := clampIdx l }
      | some fIdx =>
        if fIdx = 0 then { l with selectedIdx := clampIdx l }
        else
          match (getFilteredInstances l).get? (fIdx - 1) with
          | none => { l with selectedIdx := clampIdx l }
          | some prevItem =>
            match findIndex l.items prevItem with
            | some j => { l with selectedIdx := j }
            | none => { l with selectedIdx := clampIdx l }

/-- List.addRepo (list 432-443): bump the usage count (absent keys are first
set to 0, then incremented), add the tab, re-validate the selection. -/
def addRepoOp (l : ListState) (repo : String) : ListState :=
  let c := (lookupCount l.repos repo).getD 0
  let l1 := { l with repos := setCount l.repos repo (c + 1) }
  let l2 := { l1 with repoTabs := l1.repoTabs.addRepo repo }
  ensureValidSelection l2

/-- List.rmRepo (list 445-459): unknown keys are only logged; otherwise the
count is decremented and, exactly when it reaches 0, the key is deleted, the
tab removed, and the selection re-validated. -/
def rmRepoOp (l : ListState) (repo : String) : ListState :=
  match lookupCount l.repos repo with
  | none => l
  | some c =>
    if c - 1 = 0 then
      let l1 := { l with repos := eraseKey l.repos repo }
      let l2 := { l1 with repoTabs := l1.repoTabs.removeRepo repo }
      ensureValidSelection l2
    else
      { l with repos := setCount l.repos repo (c - 1) }

/-- List.AddInstance (list 464-480): append the instance. The returned
finalizer is modelled separately as finalizeOp. -/
def addInstanceOp (l : ListState) (inst : Instance) : ListState :=
  { l with items := l.items ++ [inst] }

/-- The finalizer returned by List.AddInstance: register the repo path once
the instance is started; GetGitWorktree on a not-yet-started instance errors
(spec section 4.1 guarded no-op), which the finalizer only logs. -/
def finalizeOp (l : ListState) (inst : Instance) : ListState :=
  if inst.started then addRepoOp l inst.getRepoPath else l

/-- List.Kill (list 346-372). Empty list: early return. The target is
items[selectedIdx] — Go panics (none) when that index is out of range. The
deferred Up is registered when the target is the final element and runs after
the removal. rmRepo runs before the removal and its EnsureValidSelection may
move selectedIdx, so the element removed is the one at the possibly-moved
index, exactly as in the source. -/
def killOp (l : ListState) : Option ListState :=
  if l.items.isEmpty then some l
  else
    match l.items.get? l.selectedIdx with
    | none => none
    | some target =>
      let wasLast := l.selectedIdx = l.items.length - 1
      let l1 := if target.started then rmRepoOp l target.getRepoPath else l
      let l2 := { l1 with items := l1.items.eraseIdx l1.selectedIdx }
      some (if wasLast then upOp l2 else l2)

/-- List.Attach (list 374-377): items[selectedIdx] with no bounds check; a Go
panic on an out-of-range index is `none`. -/
def attachTarget (l : ListState) : Option Instance :=
  l.items.get? l.selectedIdx

/-- List.AttachToTerminal (list 379-382): the same unguarded indexing. -/
def attachToTerminalTarget (l : ListState) : Option Instance :=
  l.items.get? l.selectedIdx

/-- The selection invariant of spec sections 4.6 and 8: whenever the filtered
view is non-empty, the selection index denotes an element of items that is a
member of the filtered view. -/
def selectionOk (l : ListState) : Prop :=
  getFilteredInstances l ≠ [] →
    ∃ x ∈ getFilteredInstances l, l.items.get? l.selectedIdx = some x

/- Concrete sample data shared by several claims. -/

def sampleWorktree (p : String) : GitWorktreeData :=
  { repoPath := p, worktreePath := "", sessionName := "", branchName := "",
    baseCommitSHA := "" }

def sampleDiff : DiffStatsData := { added := 0, removed := 0, content := "" }

def sampleData (t p : String) : InstanceData :=
  { title := t, path := "", branch := "", status := Status.ready, height := 0,
    width := 0, createdAt := 0, updatedAt := 0, autoYes := false,
    repositoryPath := p, program := "", worktree := sampleWorktree p,
    diffStats := sampleDiff }

/-- A started instance whose worktree's RepoPath is p. -/
def startedInstance (t p : String) : Instance :=
  { started := true, data := sampleData t p }

/-- A not-yet-started instance: no repository yet. -/
def pendingInstance (t : String) : Instance :=
  { started := false, data := sampleData t "" }

/-- Claim C3: state migration is idempotent, StateVersion never decreases,
migration from version 0 sets Repositories to an empty list when nil and the
version to 1, and migration of a state whose version is not 0 is the
identity. -/
theorem c3_migration_idempotent (s : State) :
    migrateState (migrateState s) = migrateState s ∧
    s.stateVersion ≤ (migrateState s).stateVersion ∧
    (s.stateVersion = 0 →
      (migrateState s).stateVersion = 1 ∧
      (s.repositories = none → (migrateState s).repositories = some [])) ∧
    (s.stateVersion ≠ 0 → migrateState s = s) := by
  by_cases h : s.stateVersion = 0
  · refine ⟨?_, ?_, ?_, ?_⟩
    · simp [migrateState, h]
    · simp [migrateState, h]
    · intro _
      refine ⟨by simp [migrateState, h], ?_⟩
      intro hr
      simp [migrateState, h, hr]
    · intro hne
      exact absurd h hne
  · simp [migrateState, h]

def c3_sample : State :=
  { helpScreensSeen := 0, instancesData := "", repositories := none,
    selectedRepository := "", stateVersion := 0 }

theorem c3_witness :
    c3_sample.stateVersion = 0 ∧ c3_sample.repositories = none ∧
    migrateState (migrateState c3_sample) = migrateState c3_sample ∧
    (migrateState c3_sample).stateVersion = 1 ∧
    (migrateState c3_sample).repositories = some [] :=
  ⟨rfl, rfl, (c3_migration_idempotent c3_sample).1,
    ((c3_migration_idempotent c3_sample).2.2.1 rfl).1,
    ((c3_migration_idempotent c3_sample).2.2.1 rfl).2 rfl⟩

/-- Claim C7: with the state file absent, LoadState writes a fresh default
state (zero help-screen bitmask, empty instances and repositories, current
version) to disk and returns it; with the file unreadable or unparsable it
returns the in-memory default and writes nothing. -/
theorem c7_loadState_fallback :
    loadState ReadOutcome.notFound = (DefaultState, some DefaultState) ∧
    DefaultState.helpScreensSeen = 0 ∧
    DefaultState.instancesData = "[]" ∧
    DefaultState.repositories = some [] ∧
    DefaultState.selectedRepository = "" ∧
    DefaultState.stateVersion = CurrentStateVersion ∧
    loadState ReadOutcome.readError = (DefaultState, none) ∧
    loadState ReadOutcome.corrupt = (DefaultState, none) ∧
    ∀ o : ReadOutcome, o ≠ ReadOutcome.notFound → (loadState o).2 = none := by
  refine ⟨rfl, rfl, rfl, rfl, rfl, rfl, rfl, rfl, ?_⟩
  intro o ho
  cases o with
  | configDirError => rfl
  | notFound => exact absurd rfl ho
  | readError => rfl
  | corrupt => rfl
  | parsed st => rfl

theorem c7_witness :
    (ReadOutcome.corrupt ≠ ReadOutcome.notFound) ∧
    (loadState ReadOutcome.corrupt).2 = none :=
  ⟨by decide, c7_loadState_fallback.2.2.2.2.2.2.2.2 ReadOutcome.corrupt (by decide)⟩

/- Claim C2 concrete scenario: R1, R2, I1 (started, R1), I2 (started, R2),
I3 (not started). -/

def c2_items : List Instance :=
  [startedInstance "i1" "r1", startedInstance "i2" "r2", pendingInstance "i3"]

def c2_listR1 : ListState :=
  { items := c2_items, selectedIdx := 0, repos := [("r1", 1), ("r2", 1)],
    repoTabs := { repos := ["r1", "r2"], repoNames := ["r1", "r2"], selectedIdx := 0 } }

def c2_listR2 : ListState :=
  { items := c2_items, selectedIdx := 0, repos := [("r1", 1), ("r2", 1)],
    repoTabs := { repos := ["r1", "r2"], repoNames := ["r1", "r2"], selectedIdx := 1 } }

/-- Claim C2: with an active repository filter, GetFilteredInstances keeps
every not-yet-started instance and keeps a started instance exactly when its
worktree's RepoPath equals the selected repository; in the concrete scenario
selecting R1 yields I1 and I3, selecting R2 yields I2 and I3. -/
theorem c2_filtered_instances :
    (∀ (l : ListState) (i : Instance),
        l.repoTabs.shouldShowTabs = true →
        l.repoTabs.getSelectedRepo ≠ "" →
        (i ∈ getFilteredInstances l ↔
          i ∈ l.items ∧
            (i.started = true → i.getRepoPath = l.repoTabs.getSelectedRepo))) ∧
    getFilteredInstances c2_listR1 = [startedInstance "i1" "r1", pendingInstance "i3"] ∧
    getFilteredInstances c2_listR2 = [startedInstance "i2" "r2", pendingInstance "i3"] := by
  refine ⟨?_, by decide, by decide⟩
  intro l i h1 h2
  unfold getFilteredInstances
  simp only [h1, Bool.not_true, Bool.false_eq_true, if_false]
  rw [if_neg h2]
  rw [List.mem_filter]
  cases hi : i.started <;> simp [hi]

theorem c2_witness :
    c2_listR1.repoTabs.shouldShowTabs = true ∧
    c2_listR1.repoTabs.getSelectedRepo ≠ "" ∧
    (startedInstance "i1" "r1" ∈ getFilteredInstances c2_listR1 ↔
      startedInstance "i1" "r1" ∈ c2_listR1.items ∧
        ((startedInstance "i1" "r1").started = true →
          (startedInstance "i1" "r1").getRepoPath = c2_listR1.repoTabs.getSelectedRepo)) :=
  ⟨by decide, by decide,
    c2_filtered_instances.1 c2_listR1 (startedInstance "i1" "r1") (by decide) (by decide)⟩

/-- Every element of an upsert result is the new entry or an old one. -/
theorem upsertRepo_mem_or (l : List RepositoryData) (repo : RepositoryData) :
    ∀ q ∈ upsertRepo l repo, q = repo ∨ q ∈ l := by
  induction l with
  | nil =>
    intro q hq
    simp [upsertRepo] at hq
    exact Or.inl hq
  | cons r rest ih =>
    intro q hq
    by_cases h : r.path = repo.path
    · simp only [upsertRepo, if_pos h, List.mem_cons] at hq
      rcases hq with h1 | h1
      · exact Or.inl h1
      · exact Or.inr (List.mem_cons_of_mem _ h1)
    · simp only [upsertRepo, if_neg h, List.mem_cons] at hq
      rcases hq with h1 | h1
      · exact Or.inr (by simp [h1])
      · rcases ih q h1 with h2 | h2
        · exact Or.inl h2
        · exact Or.inr (List.mem_cons_of_mem _ h2)

/-- AddRepository's loop on a path-unique list: the result holds exactly one
entry carrying the new path, namely the upserted record, and stays
path-unique. -/
theorem upsertRepo_spec (l : List RepositoryData) (repo : RepositoryData)
    (hnd : (l.map RepositoryData.path).Nodup) :
    (upsertRepo l repo).filter (fun r => decide (r.path = repo.path)) = [repo] ∧
    ((upsertRepo l repo).map RepositoryData.path).Nodup := by
  induction l with
  | nil =>
    constructor
    · simp [upsertRepo]
    · simp [upsertRepo]
  | cons r rest ih =>
    rw [List.map_cons, List.nodup_cons] at hnd
    obtain ⟨hnotin, hnd2⟩ := hnd
    by_cases h : r.path = repo.path
    · have hfil : rest.filter (fun x => decide (x.path = repo.path)) = [] := by
        rw [List.filter_eq_nil_iff]
        intro x hx
        simp only [decide_eq_true_eq]
        intro hxp
        exact hnotin (by rw [h, ← hxp]; exact List.mem_map_of_mem _ hx)
      constructor
      · simp [upsertRepo, if_pos h, List.filter_cons, hfil]
      · simp only [upsertRepo, if_pos h, List.map_cons, List.nodup_cons]
        exact ⟨by rw [← h]; exact hnotin, hnd2⟩
    · obtain ⟨ih1, ih2⟩ := ih hnd2
      constructor
      · simp only [upsertRepo, if_neg h, List.filter_cons]
        simp [h, ih1]
      · simp only [upsertRepo, if_neg h, List.map_cons, List.nodup_cons]
        refine ⟨?_, ih2⟩
        intro hmem
        rw [List.mem_map] at hmem
        obtain ⟨q, hq, hqp⟩ := hmem
        rcases upsertRepo_mem_or rest repo q hq with h2 | h2
        · exact h (by rw [h2] at hqp; rw [← hqp])
        · exact hnotin (hqp ▸ List.mem_map_of_mem _ h2)

/-- Claim C4: on a state whose repository paths are pairwise distinct,
AddRepository leaves exactly one entry with the added path, carrying the
metadata of the most recent call; path-uniqueness is preserved, and adding
the same path twice yields exactly one entry with the latest metadata. -/
theorem c4_addRepository_upsert (s : State) (repo : RepositoryData)
    (hnd : (s.listRepos.map RepositoryData.path).Nodup) :
    (s.addRepository repo).listRepos.filter (fun r => decide (r.path = repo.path)) = [repo] ∧
    ((s.addRepository repo).listRepos.map RepositoryData.path).Nodup ∧
    ∀ repo2 : RepositoryData, repo2.path = repo.path →
      ((s.addRepository repo).addRepository repo2).listRepos.filter
        (fun r => decide (r.path = repo2.path)) = [repo2] := by
  have h1 := upsertRepo_spec s.listRepos repo hnd
  refine ⟨h1.1, h1.2, ?_⟩
  intro repo2 _
  exact (upsertRepo_spec (s.addRepository repo).listRepos repo2 h1.2).1

def c4_r1 : RepositoryData :=
  { path := "p", name := "n", lastAccessed := 1, createdAt := 0, instanceCount := 0 }

def c4_r2 : RepositoryData :=
  { path := "p", name := "n2", lastAccessed := 5, createdAt := 0, instanceCount := 3 }

theorem c4_witness :
    (DefaultState.listRepos.map RepositoryData.path).Nodup ∧
    ((DefaultState.addRepository c4_r1).addRepository c4_r2).listRepos.filter
      (fun r => decide (r.path = c4_r2.path)) = [c4_r2] :=
  ⟨by decide,
    (c4_addRepository_upsert DefaultState c4_r1 (by decide)).2.2 c4_r2 (by decide)⟩

/-- The CleanupInvalidRepositories loop computes: survivors are the valid
entries in order appended to the accumulator, the removed count grows by the
number of invalid entries, and the selection is cleared exactly when some
invalid entry's path equals it. -/
theorem cleanupLoop_spec (fs : Fs) :
    ∀ (l acc : List RepositoryData) (n : Nat) (sel : String),
      cleanupLoop fs l acc n sel =
        (acc ++ l.filter (fun r => validRepoPath fs r.path),
         n + (l.filter (fun r => !validRepoPath fs r.path)).length,
         if l.any (fun r => !validRepoPath fs r.path && decide (sel = r.path)) then ""
         else sel) := by
  intro l
  induction l with
  | nil =>
    intro acc n sel
    simp [cleanupLoop]
  | cons r rest ih =>
    intro acc n sel
    by_cases hv : validRepoPath fs r.path
    · rw [cleanupLoop, if_pos hv, ih]
      simp [List.filter_cons, List.any_cons, hv, List.append_assoc]
    · rw [cleanupLoop, if_neg hv, ih]
      simp only [Prod.mk.injEq]
      refine ⟨?_, ?_, ?_⟩
      · simp [List.filter_cons, hv]
      · simp only [List.filter_cons]
        rw [if_pos (by simp [hv])]
        simp
        omega
      · by_cases hs : sel = r.path <;> simp [List.any_cons, hv, hs]

/-- Claim C5: CleanupInvalidRepositories keeps exactly the entries whose path
validates, in their original order (so it never removes a valid entry and
always removes an invalid one), reports the number removed, and clears
SelectedRepository exactly when it pointed at a removed entry. -/
theorem c5_cleanup_invalid (fs : Fs) (s : State) :
    (s.cleanupInvalidRepositories fs).1.listRepos
        = s.listRepos.filter (fun r => validRepoPath fs r.path) ∧
    (s.cleanupInvalidRepositories fs).2
        = (s.listRepos.filter (fun r => !validRepoPath fs r.path)).length ∧
    (s.cleanupInvalidRepositories fs).1.selectedRepository
        = if s.listRepos.any
              (fun r => !validRepoPath fs r.path && decide (s.selectedRepository = r.path))
          then "" else s.selectedRepository := by
  have key : cleanupLoop fs s.listRepos [] 0 s.selectedRepository =
      (s.listRepos.filter (fun r => validRepoPath fs r.path),
       (s.listRepos.filter (fun r => !validRepoPath fs r.path)).length,
       if s.listRepos.any
           (fun r => !validRepoPath fs r.path && decide (s.selectedRepository = r.path))
       then "" else s.selectedRepository) := by
    rw [cleanupLoop_spec]
    simp
  unfold State.cleanupInvalidRepositories
  rw [key]
  dsimp only
  by_cases hn : 0 < (s.listRepos.filter (fun r => !validRepoPath fs r.path)).length
  · rw [if_pos hn]
    refine ⟨?_, rfl, rfl⟩
    by_cases hF : s.listRepos.filter (fun r => validRepoPath fs r.path) = []
    · rw [if_pos hF]
      exact hF.symm
    · rw [if_neg hF]
      rfl
  · rw [if_neg hn]
    have hz : (s.listRepos.filter (fun r => !validRepoPath fs r.path)).length = 0 := by
      omega
    have hall : ∀ r ∈ s.listRepos, validRepoPath fs r.path := by
      intro r hr
      by_contra hbad
      have hmem : r ∈ s.listRepos.filter (fun x => !validRepoPath fs x.path) :=
        List.mem_filter.mpr ⟨hr, by simp [hbad]⟩
      rw [List.length_eq_zero.mp hz] at hmem
      exact absurd hmem (List.not_mem_nil r)
    have hself : s.listRepos.filter (fun r => validRepoPath fs r.path) = s.listRepos :=
      List.filter_eq_self.mpr (fun r hr => by simp [hall r hr])
    exact ⟨hself.symm, rfl, rfl⟩

/-- The CleanupOrphanedInstances loop keeps exactly the instances whose
RepositoryPath is empty or known, in order, and counts the orphans. -/
theorem orphanLoop_spec (keys : List String) :
    ∀ insts : List Instance,
      orphanLoop keys insts =
        (insts.filter (fun i =>
           decide (i.toInstanceData.repositoryPath = "" ∨ i.toInstanceData.repositoryPath ∈ keys)),
         insts.countP (fun i =>
           !decide (i.toInstanceData.repositoryPath = "" ∨ i.toInstanceData.repositoryPath ∈ keys))) := by
  intro insts
  induction insts with
  | nil => simp [orphanLoop]
  | cons i rest ih =>
    by_cases h : i.toInstanceData.repositoryPath = "" ∨ i.toInstanceData.repositoryPath ∈ keys
    · have hp : decide (i.toInstanceData.repositoryPath = "" ∨
          i.toInstanceData.repositoryPath ∈ keys) = true := decide_eq_true h
      simp only [orphanLoop, if_pos h, ih]
      rw [List.filter_cons, List.countP_cons, hp]
      simp
    · have hp : decide (i.toInstanceData.repositoryPath = "" ∨
          i.toInstanceData.repositoryPath ∈ keys) = false := decide_eq_false h
      simp only [orphanLoop, if_neg h, ih]
      rw [List.filter_cons, List.countP_cons, hp]
      simp

/-- Claim C6: orphan reconciliation keeps exactly the instances whose
RepositoryPath is empty or known to the Registry, preserving order, and
re-persists the survivors (through Storage.SaveInstances) exactly when at
least one orphan was dropped. -/
theorem c6_orphan_reconciliation (repos : List RepositoryData) (insts : List Instance) :
    (cleanupOrphanedInstances repos insts).1
      = insts.filter (fun i =>
          decide (i.toInstanceData.repositoryPath = "" ∨
                  i.toInstanceData.repositoryPath ∈ repoKeys repos)) ∧
    (cleanupOrphanedInstances repos insts).2
      = (if insts.any (fun i =>
            !decide (i.toInstanceData.repositoryPath = "" ∨
                     i.toInstanceData.repositoryPath ∈ repoKeys repos))
         then some (storageSaveInstances ((cleanupOrphanedInstances repos insts).1))
         else none) := by
  have hs := orphanLoop_spec (repoKeys repos) insts
  constructor
  · simp [cleanupOrphanedInstances, hs]
  · by_cases hany : insts.any (fun i =>
        !decide (i.toInstanceData.repositoryPath = "" ∨
                 i.toInstanceData.repositoryPath ∈ repoKeys repos)) = true
    · have hpos : 0 < insts.countP (fun i =>
          !decide (i.toInstanceData.repositoryPath = "" ∨
                   i.toInstanceData.repositoryPath ∈ repoKeys repos)) := by
        rcases List.any_eq_true.mp hany with ⟨a, ha, hpa⟩
        exact List.countP_pos_iff.mpr ⟨a, ha, hpa⟩
      simp [cleanupOrphanedInstances, hs, hany, hpos]
    · have hz : insts.countP (fun i =>
          !decide (i.toInstanceData.repositoryPath = "" ∨
                   i.toInstanceData.repositoryPath ∈ repoKeys repos)) = 0 := by
        by_contra hne
        rcases List.countP_pos_iff.mp (Nat.pos_of_ne_zero hne) with ⟨a, ha, hpa⟩
        exact hany (List.any_eq_true.mpr ⟨a, ha, hpa⟩)
      simp [cleanupOrphanedInstances, hs, hany, hz]

/-- SaveInstances as a filter-then-serialize. -/
theorem storageSaveInstances_eq (l : List Instance) :
    storageSaveInstances l = (l.filter (fun i => i.started)).map Instance.toInstanceData := by
  induction l with
  | nil => rfl
  | cons i rest ih =>
    cases h : i.started <;> simp [storageSaveInstances, h, List.filter_cons, ih]

/-- Claim C10: Storage.SaveInstances persists only started instances — a
save-then-load round trip of the collection returns exactly the started
instances, every started instance's record is persisted, and a
not-yet-started instance is silently omitted. -/
theorem c10_save_started_only :
    (∀ l : List Instance,
        storageLoadInstances (storageSaveInstances l) = l.filter (fun i => i.started)) ∧
    (∀ (l : List Instance) (i : Instance), i ∈ l → i.started = true →
        i.toInstanceData ∈ storageSaveInstances l) ∧
    (∀ i : Instance, i.started = false → storageSaveInstances [i] = []) := by
  refine ⟨?_, ?_, ?_⟩
  · intro l
    rw [storageSaveInstances_eq]
    unfold storageLoadInstances
    rw [List.map_map]
    have hid : ∀ i ∈ l.filter (fun i => i.started),
        (fromInstanceData ∘ Instance.toInstanceData) i = id i := by
      intro i hi
      have hst : i.started = true := by
        have := (List.mem_filter.mp hi).2
        simpa using this
      cases i with
      | mk st d =>
        simp only [Function.comp, fromInstanceData, Instance.toInstanceData, id]
        simp at hst
        rw [hst]
    rw [List.map_congr_left hid, List.map_id]
  · intro l i hi hst
    rw [storageSaveInstances_eq]
    exact List.mem_map_of_mem _ (List.mem_filter.mpr ⟨hi, by rw [hst]⟩)
  · intro i hst
    simp [storageSaveInstances, hst]

theorem c10_witness :
    (pendingInstance "x").started = false ∧
    storageSaveInstances [pendingInstance "x"] = [] ∧
    storageLoadInstances
        (storageSaveInstances [startedInstance "y" "r", pendingInstance "x"])
      = [startedInstance "y" "r"] :=
  ⟨rfl, c10_save_started_only.2.2 (pendingInstance "x") rfl,
    by rw [c10_save_started_only.1]; decide⟩

/-- Descending order on LastAccessed (non-strict), the target order of
GetRepositoriesSortedByLastAccessed. -/
def laGe (a b : RepositoryData) : Prop := b.lastAccessed ≤ a.lastAccessed

theorem laBefore_true {a b : RepositoryData} (h : laBefore a b = true) :
    a.lastAccessed < b.lastAccessed := by
  unfold laBefore at h
  exact of_decide_eq_true h

theorem laBefore_not {a b : RepositoryData} (h : ¬ laBefore a b = true) :
    b.lastAccessed ≤ a.lastAccessed := by
  unfold laBefore at h
  exact not_lt.mp (fun hlt => h (decide_eq_true hlt))

theorem passN_nil (k : Nat) : passN k [] = [] := by
  cases k <;> rfl

theorem passN_singleton (k : Nat) (a : RepositoryData) : passN k [a] = [a] := by
  cases k <;> rfl

theorem passN_perm : ∀ (k : Nat) (xs : List RepositoryData), (passN k xs).Perm xs := by
  intro k
  induction k with
  | zero => intro xs; exact List.Perm.refl _
  | succ k ih =>
    intro xs
    rcases xs with _ | ⟨a, _ | ⟨b, rest⟩⟩
    · exact List.Perm.refl _
    · exact List.Perm.refl _
    · simp only [passN]
      by_cases h : laBefore a b
      · rw [if_pos h]
        exact ((ih (a :: rest)).cons b).trans (List.Perm.swap a b rest)
      · rw [if_neg h]
        exact (ih (b :: rest)).cons a

theorem passN_length (k : Nat) (xs : List RepositoryData) :
    (passN k xs).length = xs.length :=
  (passN_perm k xs).length_eq

/-- A pass never reorders entries with equal LastAccessed: the sublist of
entries carrying any one timestamp is untouched. -/
theorem passN_filter (t : Int) : ∀ (k : Nat) (xs : List RepositoryData),
    (passN k xs).filter (fun r => decide (r.lastAccessed = t))
      = xs.filter (fun r => decide (r.lastAccessed = t)) := by
  intro k
  induction k with
  | zero => intro xs; rfl
  | succ k ih =>
    intro xs
    rcases xs with _ | ⟨a, _ | ⟨b, rest⟩⟩
    · rfl
    · rfl
    · simp only [passN]
      by_cases h : laBefore a b
      · rw [if_pos h]
        have hlt := laBefore_true h
        by_cases pa : a.lastAccessed = t <;> by_cases pb : b.lastAccessed = t
        · omega
        · simp [List.filter_cons, ih, pa, pb]
        · simp [List.filter_cons, ih, pa, pb]
        · simp [List.filter_cons, ih, pa, pb]
      · rw [if_neg h]
        simp [List.filter_cons, ih]

theorem bubbleAux_nil (k : Nat) : bubbleAux k [] = [] := by
  induction k with
  | zero => rfl
  | succ k ih =>
    rw [show bubbleAux (k + 1) [] = bubbleAux k (passN (k + 1) []) from rfl, passN_nil]
    exact ih

theorem bubbleAux_perm : ∀ (k : Nat) (xs : List RepositoryData),
    (bubbleAux k xs).Perm xs := by
  intro k
  induction k with
  | zero => intro xs; exact List.Perm.refl _
  | succ k ih =>
    intro xs
    exact (ih (passN (k + 1) xs)).trans (passN_perm (k + 1) xs)

theorem bubbleAux_filter (t : Int) : ∀ (k : Nat) (xs : List RepositoryData),
    (bubbleAux k xs).filter (fun r => decide (r.lastAccessed = t))
      = xs.filter (fun r => decide (r.lastAccessed = t)) := by
  intro k
  induction k with
  | zero => intro xs; rfl
  | succ k ih =>
    intro xs
    rw [show bubbleAux (k + 1) xs = bubbleAux k (passN (k + 1) xs) from rfl,
      ih, passN_filter]

/-- A full pass pushes an entry of minimal LastAccessed to the back. -/
theorem passN_back_min : ∀ (k : Nat) (xs : List RepositoryData), xs ≠ [] →
    xs.length ≤ k + 1 →
    ∃ ys m, passN k xs = ys ++ [m] ∧
      ∀ x ∈ xs, m.lastAccessed ≤ x.lastAccessed := by
  intro k
  induction k with
  | zero =>
    intro xs hne hlen
    rcases xs with _ | ⟨a, _ | ⟨b, rest⟩⟩
    · exact absurd rfl hne
    · exact ⟨[], a, rfl, by intro x hx; simp at hx; rw [hx]⟩
    · simp at hlen
  | succ k ih =>
    intro xs hne hlen
    rcases xs with _ | ⟨a, _ | ⟨b, rest⟩⟩
    · exact absurd rfl hne
    · exact ⟨[], a, passN_singleton _ a, by intro x hx; simp at hx; rw [hx]⟩
    · simp only [passN]
      by_cases h : laBefore a b
      · rw [if_pos h]
        have hlt := laBefore_true h
        obtain ⟨ys, m, heq, hmin⟩ := ih (a :: rest) (by simp)
          (by simp at hlen ⊢; omega)
        refine ⟨b :: ys, m, by rw [heq, List.cons_append], ?_⟩
        intro x hx
        simp at hx
        rcases hx with h1 | h1 | h1
        · rw [h1]; exact hmin a (by simp)
        · rw [h1]; exact (hmin a (by simp)).trans (le_of_lt hlt)
        · exact hmin x (by simp [h1])
      · rw [if_neg h]
        have hle := laBefore_not h
        obtain ⟨ys, m, heq, hmin⟩ := ih (b :: rest) (by simp)
          (by simp at hlen ⊢; omega)
        refine ⟨a :: ys, m, by rw [heq, List.cons_append], ?_⟩
        intro x hx
        simp at hx
        rcases hx with h1 | h1 | h1
        · rw [h1]; exact (hmin b (by simp)).trans hle
        · rw [h1]; exact hmin b (by simp)
        · exact hmin x (by simp [h1])

/-- A pass leaves a trailing minimal entry in place. -/
theorem passN_append_min : ∀ (k : Nat) (zs : List RepositoryData) (m : RepositoryData),
    (∀ x ∈ zs, m.lastAccessed ≤ x.lastAccessed) →
    passN k (zs ++ [m]) = passN k zs ++ [m] := by
  intro k
  induction k with
  | zero => intro zs m _; rfl
  | succ k ih =>
    intro zs m hmin
    rcases zs with _ | ⟨a, _ | ⟨b, rest⟩⟩
    · simp [passN_nil, passN_singleton]
    · have hm : m.lastAccessed ≤ a.lastAccessed := hmin a (by simp)
      have hnb : ¬ laBefore a m = true := fun hc => absurd (laBefore_true hc) (not_lt.mpr hm)
      simp only [List.cons_append, List.nil_append, passN]
      rw [if_neg hnb, passN_singleton]
    · simp only [List.cons_append, passN]
      by_cases h : laBefore a b
      · rw [if_pos h, if_pos h, List.cons_append]
        have hsub : ∀ x ∈ a :: rest, m.lastAccessed ≤ x.lastAccessed := by
          intro x hx
          rcases List.mem_cons.mp hx with h1 | h1
          · exact hmin x (by simp [h1])
          · exact hmin x (by simp [h1])
        have := ih (a :: rest) m hsub
        rw [List.cons_append] at this
        exact congrArg (List.cons b) this
      · rw [if_neg h, if_neg h, List.cons_append]
        have hsub : ∀ x ∈ b :: rest, m.lastAccessed ≤ x.lastAccessed := by
          intro x hx
          rcases List.mem_cons.mp hx with h1 | h1
          · exact hmin x (by simp [h1])
          · exact hmin x (by simp [h1])
        have := ih (b :: rest) m hsub
        rw [List.cons_append] at this
        exact congrArg (List.cons a) this

/-- Later (shorter) passes also leave a trailing minimal entry in place. -/
theorem bubbleAux_append_min : ∀ (k : Nat) (zs : List RepositoryData) (m : RepositoryData),
    (∀ x ∈ zs, m.lastAccessed ≤ x.lastAccessed) →
    bubbleAux k (zs ++ [m]) = bubbleAux k zs ++ [m] := by
  intro k
  induction k with
  | zero => intro zs m _; rfl
  | succ k ih =>
    intro zs m hmin
    rw [show bubbleAux (k + 1) (zs ++ [m]) = bubbleAux k (passN (k + 1) (zs ++ [m])) from rfl,
      show bubbleAux (k + 1) zs = bubbleAux k (passN (k + 1) zs) from rfl,
      passN_append_min (k + 1) zs m hmin]
    exact ih (passN (k + 1) zs) m
      (fun x hx => hmin x ((passN_perm (k + 1) zs).mem_iff.mp hx))

/-- Enough passes sort the list descending by LastAccessed. -/
theorem bubbleAux_sorted : ∀ (k : Nat) (xs : List RepositoryData),
    xs.length ≤ k + 1 → (bubbleAux k xs).Pairwise laGe := by
  intro k
  induction k with
  | zero =>
    intro xs hlen
    rcases xs with _ | ⟨a, _ | ⟨b, rest⟩⟩
    · exact List.Pairwise.nil
    · simp [bubbleAux]
    · simp at hlen
  | succ k ih =>
    intro xs hlen
    by_cases hne : xs = []
    · rw [hne, bubbleAux_nil]
      exact List.Pairwise.nil
    · obtain ⟨ys, m, heq, hmin⟩ := passN_back_min (k + 1) xs hne (by omega)
      rw [show bubbleAux (k + 1) xs = bubbleAux k (passN (k + 1) xs) from rfl, heq]
      have hminys : ∀ x ∈ ys, m.lastAccessed ≤ x.lastAccessed := by
        intro x hx
        apply hmin
        have hxmem : x ∈ ys ++ [m] := List.mem_append_left _ hx
        rw [← heq] at hxmem
        exact (passN_perm (k + 1) xs).mem_iff.mp hxmem
      rw [bubbleAux_append_min k ys m hminys]
      have hlys : ys.length ≤ k + 1 := by
        have h1 : (ys ++ [m]).length = xs.length := by
          rw [← heq]
          exact passN_length _ _
        simp at h1
        omega
      rw [List.pairwise_append]
      refine ⟨ih ys hlys, by simp, ?_⟩
      intro x hx y hy
      simp at hy
      rw [hy]
      exact hminys x ((bubbleAux_perm k ys).mem_iff.mp hx)

/-- Claim C8: GetRepositoriesSortedByLastAccessed returns the repositories
in descending LastAccessed order; the sort is stable (entries with equal
timestamps keep their original relative order, stated as: the sublist with
any one timestamp is unchanged) and a permutation of the original list; the state
itself is left unchanged (only the copy is sorted). -/
theorem c8_sorted_stable (s : State) :
    (s.getRepositoriesSortedByLastAccessed.1).Pairwise laGe ∧
    (s.getRepositoriesSortedByLastAccessed.1).Perm s.listRepos ∧
    (∀ t : Int,
      (s.getRepositoriesSortedByLastAccessed.1).filter
          (fun r => decide (r.lastAccessed = t))
        = s.listRepos.filter (fun r => decide (r.lastAccessed = t))) ∧
    s.getRepositoriesSortedByLastAccessed.2 = s := by
  refine ⟨?_, ?_, ?_, rfl⟩
  · exact bubbleAux_sorted _ _ (by omega)
  · exact bubbleAux_perm _ _
  · intro t
    exact bubbleAux_filter t _ _

/-- The filtered view draws only from the item sequence. -/
theorem mem_filtered_sub (l : ListState) :
    ∀ x ∈ getFilteredInstances l, x ∈ l.items := by
  intro x hx
  unfold getFilteredInstances at hx
  split at hx
  · exact hx
  · split at hx
    · exact hx
    · exact (List.mem_filter.mp hx).1

/-- A non-empty filtered view forces a non-empty item sequence. -/
theorem filtered_ne_nil_items (l : ListState) :
    getFilteredInstances l ≠ [] → l.items ≠ [] := by
  intro hne hit
  apply hne
  unfold getFilteredInstances
  rw [hit]
  simp

/-- Changing only the selection index does not change the filtered view. -/
theorem filtered_update_idx (l : ListState) (j : Nat) :
    getFilteredInstances { l with selectedIdx := j } = getFilteredInstances l := rfl

/-- The find-first-index loop succeeds on a member and lands on it. -/
theorem findIndex_spec {α : Type} [DecidableEq α] :
    ∀ (xs : List α) (a : α), a ∈ xs →
      ∃ j, findIndex xs a = some j ∧ xs.get? j = some a := by
  intro xs a
  induction xs with
  | nil => intro h; exact absurd h (List.not_mem_nil a)
  | cons x rest ih =>
    intro h
    by_cases hx : x = a
    · exact ⟨0, by simp [findIndex, hx], by simp [hx]⟩
    · have hmem : a ∈ rest := by
        rcases List.mem_cons.mp h with h1 | h1
        · exact absurd h1.symm hx
        · exact h1
      obtain ⟨j, hfind, hget⟩ := ih hmem
      exact ⟨j + 1, by simp [findIndex, hx, hfind], by simpa using hget⟩

/-- EnsureValidSelection establishes the selection invariant. -/
theorem ensureValid_ok (l : ListState) : selectionOk (ensureValidSelection l) := by
  unfold ensureValidSelection
  rcases hF : getFilteredInstances l with _ | ⟨first, rest⟩
  · simp only [hF]
    intro hne
    exact absurd hF hne
  · simp only [hF]
    have hitems : l.items ≠ [] := filtered_ne_nil_items l (by rw [hF]; simp)
    have hclamp : clampIdx l < l.items.length := by
      unfold clampIdx
      split
      · exact List.length_pos.mpr hitems
      · omega
    obtain ⟨c, hc⟩ : ∃ c, l.items.get? (clampIdx l) = some c := by
      rw [List.get?_eq_get hclamp]
      exact ⟨_, rfl⟩
    simp only [hc]
    by_cases hmem : c ∈ first :: rest
    · rw [if_pos hmem]
      intro hne
      show ∃ x ∈ getFilteredInstances l, l.items.get? (clampIdx l) = some x
      rw [hF]
      exact ⟨c, hmem, hc⟩
    · rw [if_neg hmem]
      have hfirstmem : first ∈ getFilteredInstances l := by
        rw [hF]
        simp
      obtain ⟨j, hfind, hgetj⟩ :=
        findIndex_spec l.items first (mem_filtered_sub l first hfirstmem)
      simp only [hfind]
      intro hne
      show ∃ x ∈ getFilteredInstances l, l.items.get? j = some x
      exact ⟨first, hfirstmem, hgetj⟩

/-- Claim C1 (amended): EnsureValidSelection (re-)establishes the invariant —
after it runs, the selection index refers to a member of the filtered view
whenever that view is non-empty — and the finalizer of AddInstance for a
started instance calls it, so the invariant holds after every completed add.
(A Kill of a non-final element does not re-validate; see the
counterexample.) -/
theorem c1_selection_revalidation :
    (∀ l : ListState, selectionOk (ensureValidSelection l)) ∧
    (∀ (l : ListState) (i : Instance), i.started = true →
      selectionOk (finalizeOp (addInstanceOp l i) i)) := by
  refine ⟨ensureValid_ok, ?_⟩
  intro l i hst
  unfold finalizeOp
  rw [if_pos hst]
  unfold addRepoOp
  exact ensureValid_ok _

theorem c1_witness :
    (startedInstance "w" "rw").started = true ∧
    selectionOk
      (finalizeOp (addInstanceOp newList (startedInstance "w" "rw"))
        (startedInstance "w" "rw")) :=
  ⟨rfl, c1_selection_revalidation.2 newList (startedInstance "w" "rw") rfl⟩

/-- AddInstance followed by its finalizer, as used when restoring started
instances (list.go 461-480). -/
def addAndFinalize (l : ListState) (i : Instance) : ListState :=
  finalizeOp (addInstanceOp l i) i

/-- Three adds: A (started, r1), B (started, r2), C (started, r1). The tabs
show r1 and r2 with r1 selected; the filtered view is A, C and the selection
sits on A. -/
def c1_s3 : ListState :=
  addAndFinalize
    (addAndFinalize (addAndFinalize newList (startedInstance "a" "r1"))
      (startedInstance "b" "r2"))
    (startedInstance "c" "r1")

/-- The state Kill leaves behind: A was removed, the selection index still 0
now denotes B (started, r2), but the filtered view for the selected tab r1
is the non-empty C only. -/
def c1_bad : ListState :=
  { items := [startedInstance "b" "r2", startedInstance "c" "r1"],
    selectedIdx := 0,
    repos := [("r1", 1), ("r2", 1)],
    repoTabs := { repos := ["r1", "r2"], repoNames := ["r1", "r2"], selectedIdx := 0 } }

/-- Claim C1 counterexample: after the add/add/add/Kill sequence the filtered
view is non-empty yet the selection index denotes an instance outside it, so
the claimed invariant over add/remove sequences fails on the code. -/
theorem c1_counterexample :
    killOp c1_s3 = some c1_bad ∧
    getFilteredInstances c1_bad = [startedInstance "c" "r1"] ∧
    ¬ selectionOk c1_bad := by
  refine ⟨by decide, by decide, ?_⟩
  intro hok
  obtain ⟨x, hxmem, hxget⟩ := hok (by decide)
  have hx : x = startedInstance "b" "r2" := by
    have : some (startedInstance "b" "r2") = some x := by
      rw [← hxget]
      decide
    exact (Option.some.injEq _ _ ▸ this).symm
  rw [hx] at hxmem
  revert hxmem
  decide

/-- Claim C9: Attach and AttachToTerminal index items[selectedIdx] with no
bounds check — whenever selectedIdx is at or past the item count (in
particular on an empty list) the access is out of range (a Go panic, `none`
here) — and such a state is reachable: killing the only instance leaves an
empty list with selectedIdx 0 after the deferred Up returns early on the
empty filtered view. -/
theorem c9_attach_unguarded :
    (∀ l : ListState, l.items.length ≤ l.selectedIdx →
        attachTarget l = none ∧ attachToTerminalTarget l = none) ∧
    killOp (addInstanceOp newList (pendingInstance "p")) = some newList ∧
    newList.items = [] ∧
    newList.selectedIdx = 0 ∧
    getFilteredInstances newList = [] ∧
    attachTarget newList = none ∧
    attachToTerminalTarget newList = none := by
  refine ⟨?_, by decide, rfl, rfl, rfl, rfl, rfl⟩
  intro l h
  exact ⟨List.get?_eq_none.mpr h, List.get?_eq_none.mpr h⟩

theorem c9_witness :
    newList.items.length ≤ newList.selectedIdx ∧ attachTarget newList = none :=
  ⟨by decide, (c9_attach_unguarded.1 newList (by decide)).1⟩
